import Mathlib

/-!
Verification of the JA3 TLS-ClientHello fingerprint generator (src/python/ja3.py).

Bytes are modelled as `Nat` values below 256, byte strings as `List Nat`.
Python functions that can raise become `Option`/`Except` values; Python
slicing `buf[a:b]` becomes `(buf.drop a).take (b - a)` (silently short when
the buffer ends early, exactly as in Python).
-/

namespace JA3

/-- The 16 GREASE sentinel values (GREASE_TABLE in the source). -/
def GREASE_TABLE : List Nat :=
  [0x0a0a, 0x1a1a, 0x2a2a, 0x3a3a, 0x4a4a, 0x5a5a, 0x6a6a, 0x7a7a,
   0x8a8a, 0x9a9a, 0xaaaa, 0xbaba, 0xcaca, 0xdada, 0xeaea, 0xfafa]

/-- Membership in the GREASE table (`element in GREASE_TABLE` / `GREASE_TABLE.get(v)`). -/
def isGrease (v : Nat) : Bool := GREASE_TABLE.contains v

/-- Big-endian interpretation of a byte list (what `struct.unpack` of
`!B` / `!H` / `!I` computes on a buffer of exact width; left-padding
with zero bytes does not change the value). -/
def unpackBE (buf : List Nat) : Nat := buf.foldl (fun acc b => acc * 256 + b) 0

/-- `ntoh` from the source: big-endian decode of a 1-, 2- or 4-byte buffer;
any other length raises `ValueError`, modelled by `none`. -/
def ntoh (buf : List Nat) : Option Nat :=
  if buf.length = 1 ∨ buf.length = 2 ∨ buf.length = 4 then some (unpackBE buf)
  else none

/-- `parse_variable_array` from the source: read `byte_len` bytes as a
big-endian size `L` (a 3-byte size is left-padded with one zero byte, which
does not change its big-endian value), then return
`(buf[byte_len : byte_len + L], L + byte_len)`.  The slice is silently
short when the buffer ends early.  `struct.unpack` raises (modelled by
`none`) only when fewer than `byte_len` bytes are available, and the
`assert byte_len <= 4` (together with the size-format table lookup)
restricts `byte_len` to 1..4. -/
def parse_variable_array (buf : List Nat) (byte_len : Nat) : Option (List Nat × Nat) :=
  if 1 ≤ byte_len ∧ byte_len ≤ 4 then
    if byte_len ≤ buf.length then
      let size := unpackBE (buf.take byte_len)
      some ((buf.drop byte_len).take size, size + byte_len)
    else none
  else none

/-- The element loop of `convert_to_ja3_segment`: walk the buffer in
strides of `w` bytes, decode each stride with `ntoh`, and keep the
values that are not GREASE, in order.  `fuel` only bounds the recursion
and is instantiated with the buffer length (each step consumes at least
one byte, so that is always enough). -/
def segmentValsCore (w : Nat) : Nat → List Nat → Option (List Nat)
  | _, [] => some []
  | 0, _ :: _ => none
  | fuel + 1, a :: rest =>
    match ntoh ((a :: rest).take w), segmentValsCore w fuel (rest.drop (w - 1)) with
    | some v, some tl => some (if isGrease v then tl else v :: tl)
    | _, _ => none

/-- `"-".join(...)` / `",".join(...)` from the source. -/
def joinSep (sep : String) : List String → String
  | [] => ""
  | [s] => s
  | s :: t :: rest => s ++ sep ++ joinSep sep (t :: rest)

/-- `convert_to_ja3_segment` from the source: raise `ValueError`
(modelled by `none`) when the length is not a multiple of the element
width (a width of zero raises `ZeroDivisionError` at that same check),
otherwise decode each stride, drop GREASE values, and join the decimal
representations with `-`. -/
def convert_to_ja3_segment (data : List Nat) (element_width : Nat) : Option String :=
  if element_width = 0 then none
  else if data.length % element_width ≠ 0 then none
  else (segmentValsCore element_width data.length data).map fun vals =>
    joinSep "-" (vals.map toString)

/-- `getServerName` from the source: `datalen = ntoh(data[1:3])`, then
`struct.unpack('!{datalen}s', data[3:])`, which demands that the
remainder be exactly `datalen` bytes (a mismatch raises `struct.error`,
modelled by `none`) and returns it unchanged. -/
def getServerName (data : List Nat) : Option (List Nat) :=
  (ntoh ((data.drop 1).take 2)).bind fun datalen =>
    if (data.drop 3).length = datalen then some (data.drop 3) else none

/-- State threaded through the extension loop of `process_extensions`:
collected extension type codes, elliptic-curve segment, point-format
segment, server name. -/
structure ExtState where
  codes : List Nat
  curve : String
  fmt : String
  sn : List Nat
deriving DecidableEq, Repr

/-- One iteration of the `for ext_val, ext_data in extensions` loop of
`process_extensions`. -/
def extStep (st : ExtState) (e : Nat × List Nat) : Option ExtState :=
  let codes := if isGrease e.1 then st.codes else st.codes ++ [e.1]
  if e.1 = 0x0a then
    (parse_variable_array e.2 2).bind fun p =>
    (convert_to_ja3_segment p.1 2).map fun c =>
      { st with codes := codes, curve := c }
  else if e.1 = 0x0b then
    (parse_variable_array e.2 1).bind fun p =>
    (convert_to_ja3_segment p.1 1).map fun f =>
      { st with codes := codes, fmt := f }
  else if e.1 = 0x00 then
    (parse_variable_array e.2 2).bind fun p =>
    (getServerName p.1).map fun s =>
      { st with codes := codes, sn := s }
  else some { st with codes := codes }

/-- `process_extensions` from the source.  A handshake without an
`extensions` attribute is modelled by `none` and yields
`(["", "", ""], "")`; otherwise the extension list is walked and the
three JA3 segments plus the server name are returned.  Any uncaught
exception inside the loop is modelled by the outer `none`. -/
def process_extensions (exts : Option (List (Nat × List Nat))) :
    Option (List String × List Nat) :=
  match exts with
  | none => some (["", "", ""], [])
  | some l =>
    (l.foldlM extStep ⟨[], "", "", []⟩).map fun st =>
      ([joinSep "-" (st.codes.map toString), st.curve, st.fmt], st.sn)

/-! ### MD5 (`hashlib.md5`), per RFC 1321, over 32-bit words modelled as `Nat % 2^32` -/

/-- 2^32, the modulus for 32-bit arithmetic. -/
def M32 : Nat := 4294967296

/-- Bitwise complement on 32 bits. -/
def not32 (x : Nat) : Nat := Nat.xor x 4294967295

/-- Left rotation of a 32-bit word by `n` (0 < n < 32) positions. -/
def rotl32 (x n : Nat) : Nat := ((x * 2 ^ n) % M32) + x % M32 / 2 ^ (32 - n)

/-- The 64 MD5 sine-derived constants. -/
def md5K : List Nat :=
  [0xd76aa478, 0xe8c7b756, 0x242070db, 0xc1bdceee,
   0xf57c0faf, 0x4787c62a, 0xa8304613, 0xfd469501,
   0x698098d8, 0x8b44f7af, 0xffff5bb1, 0x895cd7be,
   0x6b901122, 0xfd987193, 0xa679438e, 0x49b40821,
   0xf61e2562, 0xc040b340, 0x265e5a51, 0xe9b6c7aa,
   0xd62f105d, 0x02441453, 0xd8a1e681, 0xe7d3fbc8,
   0x21e1cde6, 0xc33707d6, 0xf4d50d87, 0x455a14ed,
   0xa9e3e905, 0xfcefa3f8, 0x676f02d9, 0x8d2a4c8a,
   0xfffa3942, 0x8771f681, 0x6d9d6122, 0xfde5380c,
   0xa4beea44, 0x4bdecfa9, 0xf6bb4b60, 0xbebfbc70,
   0x289b7ec6, 0xeaa127fa, 0xd4ef3085, 0x04881d05,
   0xd9d4d039, 0xe6db99e5, 0x1fa27cf8, 0xc4ac5665,
   0xf4292244, 0x432aff97, 0xab9423a7, 0xfc93a039,
   0x655b59c3, 0x8f0ccc92, 0xffeff47d, 0x85845dd1,
   0x6fa87e4f, 0xfe2ce6e0, 0xa3014314, 0x4e0811a1,
   0xf7537e82, 0xbd3af235, 0x2ad7d2bb, 0xeb86d391]

/-- The 64 MD5 per-round left-rotation amounts. -/
def md5S : List Nat :=
  [7, 12, 17, 22, 7, 12, 17, 22, 7, 12, 17, 22, 7, 12, 17, 22,
   5, 9, 14, 20, 5, 9, 14, 20, 5, 9, 14, 20, 5, 9, 14, 20,
   4, 11, 16, 23, 4, 11, 16, 23, 4, 11, 16, 23, 4, 11, 16, 23,
   6, 10, 15, 21, 6, 10, 15, 21, 6, 10, 15, 21, 6, 10, 15, 21]

/-- The running MD5 state (A, B, C, D). -/
structure MD5State where
  a : Nat
  b : Nat
  c : Nat
  d : Nat
deriving DecidableEq, Repr

/-- One of the 64 MD5 rounds, acting on state `st` with message words `m`. -/
def md5Round (m : List Nat) (st : MD5State) (i : Nat) : MD5State :=
  let fv :=
    if i < 16 then Nat.lor (Nat.land st.b st.c) (Nat.land (not32 st.b) st.d)
    else if i < 32 then Nat.lor (Nat.land st.b st.d) (Nat.land st.c (not32 st.d))
    else if i < 48 then Nat.xor st.b (Nat.xor st.c st.d)
    else Nat.xor st.c (Nat.lor st.b (not32 st.d))
  let g :=
    if i < 16 then i
    else if i < 32 then (5 * i + 1) % 16
    else if i < 48 then (3 * i + 5) % 16
    else (7 * i) % 16
  let t := (fv + st.a + md5K.getD i 0 + m.getD g 0) % M32
  ⟨st.d, (st.b + rotl32 t (md5S.getD i 0)) % M32, st.b, st.c⟩

/-- The 16 little-endian 32-bit message words of one 64-byte block. -/
def leWords16 (block : List Nat) : List Nat :=
  (List.range 16).map fun j =>
    block.getD (4 * j) 0 + 256 * block.getD (4 * j + 1) 0 +
      65536 * block.getD (4 * j + 2) 0 + 16777216 * block.getD (4 * j + 3) 0

/-- Process one 64-byte block: run the 64 rounds and add the result to
the incoming state. -/
def md5ProcessBlock (st : MD5State) (block : List Nat) : MD5State :=
  let r := (List.range 64).foldl (md5Round (leWords16 block)) st
  ⟨(st.a + r.a) % M32, (st.b + r.b) % M32, (st.c + r.c) % M32, (st.d + r.d) % M32⟩

/-- `n` rendered as 8 little-endian bytes (i.e. modulo 2^64). -/
def leBytes8 (n : Nat) : List Nat := (List.range 8).map fun i => n / 2 ^ (8 * i) % 256

/-- A 32-bit word rendered as 4 little-endian bytes. -/
def leBytes4 (n : Nat) : List Nat := (List.range 4).map fun i => n / 2 ^ (8 * i) % 256

/-- MD5 padding: append `0x80`, zero bytes up to 56 mod 64, then the
bit length as 8 little-endian bytes. -/
def md5Pad (msg : List Nat) : List Nat :=
  msg ++ [0x80] ++ List.replicate ((119 - msg.length % 64) % 64) 0 ++ leBytes8 (8 * msg.length)

/-- Split a list into 64-byte chunks; `fuel` bounds the recursion and is
instantiated with the list length. -/
def chunks64 : Nat → List Nat → List (List Nat)
  | 0, _ => []
  | _, [] => []
  | fuel + 1, l => l.take 64 :: chunks64 fuel (l.drop 64)

/-- The 16 digest bytes of the MD5 of a byte string. -/
def md5Bytes (msg : List Nat) : List Nat :=
  let padded := md5Pad msg
  let st := (chunks64 padded.length padded).foldl md5ProcessBlock
    ⟨0x67452301, 0xefcdab89, 0x98badcfe, 0x10325476⟩
  leBytes4 st.a ++ leBytes4 st.b ++ leBytes4 st.c ++ leBytes4 st.d

/-- Lowercase hexadecimal digit for `n < 16`. -/
def hexDigit (n : Nat) : Char := if n < 10 then Char.ofNat (48 + n) else Char.ofNat (87 + n)

/-- A byte rendered as two lowercase hexadecimal digits. -/
def byteHex (b : Nat) : String := String.mk [hexDigit (b / 16), hexDigit (b % 16)]

/-- `hashlib.md5(msg).hexdigest()`: the digest as 32 lowercase hex characters. -/
def md5Hex (msg : List Nat) : String := String.join ((md5Bytes msg).map byteHex)

/-- UTF-8 encoding of one character (`str.encode()` acts per character). -/
def utf8Encode (c : Char) : List Nat :=
  let n := c.toNat
  if n < 0x80 then [n]
  else if n < 0x800 then [0xc0 + n / 64, 0x80 + n % 64]
  else if n < 0x10000 then [0xe0 + n / 4096, 0x80 + n / 64 % 64, 0x80 + n % 64]
  else [0xf0 + n / 262144, 0x80 + n / 4096 % 64, 0x80 + n / 64 % 64, 0x80 + n % 64]

/-- `s.encode()`: the UTF-8 bytes of a string. -/
def strBytes (s : String) : List Nat := (s.data.map utf8Encode).flatten

/-- `hashlib.md5(s.encode()).hexdigest()` as used at lines 233-234 of the source. -/
def md5HexOfString (s : String) : String := md5Hex (strBytes s)

/-! ### The ClientHello decoder and the per-record loop of `process_pcap` -/

/-- The `dpkt.ssl.TLSClientHello` input to the decode step at lines
224-234: the already-parsed version, the remaining handshake bytes
(`client_handshake.data`, starting at the session-id length byte), and
the extension list (`none` when the object has no `extensions`
attribute). -/
structure ClientHello where
  version : Nat
  data : List Nat
  extensions : Option (List (Nat × List Nat))
deriving DecidableEq, Repr

/-- The fingerprint fields of one output record of `process_pcap`
(flow metadata is opaque pass-through and omitted). -/
structure JA3Result where
  ja3 : String
  ja3_digest : String
  server_name : List Nat
deriving DecidableEq, Repr

/-- Lines 224-234 of the source: skip the session id (1-byte prefix),
extract the cipher-suite array (2-byte prefix), encode it with width 2,
walk the extensions, join the five segments with commas and hash the
result.  Any exception raised by these calls is modelled by `none`. -/
def decodeClientHello (ch : ClientHello) : Option JA3Result :=
  (parse_variable_array ch.data 1).bind fun p1 =>
  (parse_variable_array (ch.data.drop p1.2) 2).bind fun p2 =>
  (convert_to_ja3_segment p2.1 2).bind fun ciphers =>
  (process_extensions ch.extensions).map fun er =>
    let ja3 := joinSep "," ([toString ch.version, ciphers] ++ er.1)
    ⟨ja3, md5HexOfString ja3, er.2⟩

/-- One TLS record as seen by the `for record in records` loop at line
205: either a record dismissed by one of the guarded pre-checks (wrong
record type, empty payload, not a ClientHello, `NeedData` — all of which
`continue`), or a record that reaches the ClientHello decode. -/
inductive TLSRecord where
  | skipped
  | hello (ch : ClientHello)
deriving DecidableEq, Repr

/-- One iteration of the per-record loop of `process_pcap`: skipped
records are passed over, a successfully decoded ClientHello appends its
record to `results`, and an exception raised inside the decode is not
caught by any handler in the loop (modelled by `Except.error`). -/
def recStep (acc : List JA3Result) (r : TLSRecord) : Except String (List JA3Result) :=
  match r with
  | .skipped => Except.ok acc
  | .hello ch =>
    match decodeClientHello ch with
    | some res => Except.ok (acc ++ [res])
    | none => Except.error "uncaught parsing exception"

/-- The per-record loop of `process_pcap` (lines 205-243), folding
`recStep` over the records of one packet. -/
def process_records (recs : List TLSRecord) : Except String (List JA3Result) :=
  recs.foldlM recStep []

/-- The SNI branch of the extension walker (lines 141-142 of the
source): strip the outer 2-byte length prefix, then run `getServerName`
on the payload. -/
def sniFromExt (ext_data : List Nat) : Option (List Nat) :=
  (parse_variable_array ext_data 2).bind fun p => getServerName p.1

/-! ### Spec-side reformulation of the Segment Encoder (for refinement claims) -/

/-- Split a buffer into `w`-byte strides in order (fuel-bounded version;
the fuel is instantiated with the buffer length). -/
def chunksWCore (w : Nat) : Nat → List Nat → List (List Nat)
  | _, [] => []
  | 0, _ :: _ => []
  | fuel + 1, a :: rest => (a :: rest).take w :: chunksWCore w fuel (rest.drop (w - 1))

/-- Split a buffer into `w`-byte strides in order. -/
def chunksW (w : Nat) (data : List Nat) : List (List Nat) :=
  chunksWCore w data.length data

/-- The Segment Encoder as the spec words it: read the `w`-byte
big-endian values in stride order, remove every GREASE value (keeping
the relative order of the rest), and join the decimal renderings with
hyphens.  Written independently of `convert_to_ja3_segment` so the two
can be compared. -/
def specSegment (data : List Nat) (w : Nat) : String :=
  joinSep "-" (((((chunksW w data).map unpackBE).filter fun v => !isGrease v).map toString))

/-! ### Helper lemmas -/

lemma le_of_mod_eq_zero {w n : Nat} (hm : n % w = 0) (hn : 0 < n) : w ≤ n :=
  Nat.le_of_dvd hn (Nat.dvd_of_mod_eq_zero hm)

/-- The element loop computes exactly the GREASE-filtered big-endian
values of the `w`-byte strides, whenever the buffer length is a
multiple of the (1- or 2-byte) stride width. -/
lemma segmentValsCore_eq_chunks {w : Nat} (hw : w = 1 ∨ w = 2) :
    ∀ (fuel : Nat) (data : List Nat), data.length % w = 0 → data.length ≤ fuel →
      segmentValsCore w fuel data =
        some (((chunksWCore w fuel data).map unpackBE).filter fun v => !isGrease v) := by
  intro fuel
  induction fuel with
  | zero =>
    intro data hm hf
    have hdata : data = [] := List.eq_nil_of_length_eq_zero (Nat.le_zero.mp hf)
    subst hdata
    simp [segmentValsCore, chunksWCore]
  | succ fuel ih =>
    intro data hm hf
    match data with
    | [] => simp [segmentValsCore, chunksWCore]
    | a :: rest =>
      have hwpos : 0 < w := by omega
      have hlen : w ≤ (a :: rest).length := le_of_mod_eq_zero hm (by simp)
      have htake : ((a :: rest).take w).length = w := by
        simp only [List.length_take]
        omega
      have hcond : ((a :: rest).take w).length = 1 ∨ ((a :: rest).take w).length = 2 ∨
          ((a :: rest).take w).length = 4 := by
        rw [htake]
        omega
      have hntoh : ntoh ((a :: rest).take w) = some (unpackBE ((a :: rest).take w)) := by
        unfold ntoh
        rw [if_pos hcond]
      have hdlen : (rest.drop (w - 1)).length = (a :: rest).length - w := by
        simp only [List.length_drop, List.length_cons]
        omega
      have hrec := ih (rest.drop (w - 1))
        (by
          rw [hdlen]
          rcases hw with h | h <;> subst h <;> simp only [List.length_cons] at hm ⊢ <;> omega)
        (by
          rw [hdlen]
          simp only [List.length_cons] at hf ⊢
          omega)
      simp only [segmentValsCore, chunksWCore, hntoh, hrec, List.map_cons, List.filter_cons]
      by_cases hg : isGrease (unpackBE ((a :: rest).take w)) <;> simp [hg]

/-- On aligned input of stride width 1 or 2, `convert_to_ja3_segment`
succeeds and agrees with the spec-side Segment Encoder. -/
lemma convert_eq_specSegment {data : List Nat} {w : Nat} (hw : w = 1 ∨ w = 2)
    (hm : data.length % w = 0) :
    convert_to_ja3_segment data w = some (specSegment data w) := by
  have hw0 : ¬ w = 0 := by omega
  unfold convert_to_ja3_segment specSegment chunksW
  rw [if_neg hw0, if_neg (by simp [hm]), segmentValsCore_eq_chunks hw data.length data hm le_rfl]
  rfl

/-- `convert_to_ja3_segment` fails exactly on misaligned input (for the
widths the source uses). -/
lemma convert_eq_none_iff {data : List Nat} {w : Nat} (hw : w = 1 ∨ w = 2) :
    convert_to_ja3_segment data w = none ↔ data.length % w ≠ 0 := by
  constructor
  · intro h hm
    rw [convert_eq_specSegment hw hm] at h
    exact Option.noConfusion h
  · intro hm
    have hw0 : ¬ w = 0 := by omega
    unfold convert_to_ja3_segment
    rw [if_neg hw0, if_pos hm]

/-- Every successful output of `convert_to_ja3_segment` is a hyphen
join of decimal renderings. -/
lemma convert_eq_some {data : List Nat} {w : Nat} {s : String}
    (h : convert_to_ja3_segment data w = some s) :
    ∃ vals : List Nat, s = joinSep "-" (vals.map toString) := by
  unfold convert_to_ja3_segment at h
  split at h
  · exact Option.noConfusion h
  · split at h
    · exact Option.noConfusion h
    · rw [Option.map_eq_some'] at h
      obtain ⟨vals, _, hv⟩ := h
      exact ⟨vals, hv.symm⟩

/-- Decimal digit characters are never a comma. -/
lemma digitChar_ne_comma (n : Nat) : Nat.digitChar n ≠ ',' := by
  match n with
  | 0 | 1 | 2 | 3 | 4 | 5 | 6 | 7 | 8 | 9 | 10 | 11 | 12 | 13 | 14 | 15 => decide
  | m + 16 =>
    unfold Nat.digitChar
    repeat rw [if_neg (by omega)]
    decide

/-- `Nat.toDigitsCore` only ever emits digit characters on top of its
accumulator, so it never emits a comma. -/
lemma toDigitsCore_ne_comma :
    ∀ (fuel n : Nat) (ds : List Char), (∀ c ∈ ds, c ≠ ',') →
      ∀ c ∈ Nat.toDigitsCore 10 fuel n ds, c ≠ ',' := by
  intro fuel
  induction fuel with
  | zero =>
    intro n ds hds c hc
    exact hds c hc
  | succ fuel ih =>
    intro n ds hds c hc
    simp only [Nat.toDigitsCore] at hc
    split at hc
    · rcases List.mem_cons.mp hc with h | h
      · subst h
        exact digitChar_ne_comma _
      · exact hds c h
    · refine ih _ _ ?_ c hc
      intro c' hc'
      rcases List.mem_cons.mp hc' with h | h
      · subst h
        exact digitChar_ne_comma _
      · exact hds c' h

/-- The decimal rendering of a natural number contains no comma. -/
lemma toString_nat_ne_comma (n : Nat) : ∀ c ∈ (toString n).data, c ≠ ',' := by
  intro c hc
  have : (toString n).data = Nat.toDigitsCore 10 (n + 1) n [] := rfl
  rw [this] at hc
  exact toDigitsCore_ne_comma (n + 1) n [] (by simp) c hc

/-- Joining comma-free strings with hyphens stays comma-free. -/
lemma joinSep_hyphen_ne_comma :
    ∀ l : List String, (∀ s ∈ l, ∀ c ∈ s.data, c ≠ ',') →
      ∀ c ∈ (joinSep "-" l).data, c ≠ ',' := by
  intro l
  induction l with
  | nil =>
    intro _ c hc
    simp [joinSep] at hc
  | cons s rest ih =>
    intro hl c hc
    match rest with
    | [] =>
      exact hl s (by simp) c hc
    | t :: rest' =>
      simp only [joinSep, String.data_append] at hc
      rcases List.mem_append.mp hc with h | h
      · rcases List.mem_append.mp h with h' | h'
        · exact hl s (by simp) c h'
        · simp at h'
          subst h'
          decide
      · exact ih (fun u hu => hl u (by simp [hu])) c h

/-- A hyphen join of decimal renderings contains no comma. -/
lemma joined_decimals_ne_comma (l : List Nat) :
    ∀ c ∈ (joinSep "-" (l.map toString)).data, c ≠ ',' := by
  refine joinSep_hyphen_ne_comma _ ?_
  intro s hs
  rw [List.mem_map] at hs
  obtain ⟨n, _, hn⟩ := hs
  subst hn
  exact toString_nat_ne_comma n

/-- Width-1 strides are exactly the singleton lists of the bytes. -/
lemma chunksWCore_one : ∀ (fuel : Nat) (data : List Nat), data.length ≤ fuel →
    chunksWCore 1 fuel data = data.map fun b => [b] := by
  intro fuel
  induction fuel with
  | zero =>
    intro data hf
    have hdata : data = [] := List.eq_nil_of_length_eq_zero (Nat.le_zero.mp hf)
    subst hdata
    simp [chunksWCore]
  | succ fuel ih =>
    intro data hf
    match data with
    | [] => simp [chunksWCore]
    | a :: rest =>
      simp only [chunksWCore, List.take_succ_cons, List.take_zero, List.drop_zero,
        List.map_cons, List.cons.injEq]
      exact ⟨trivial, ih rest (by simp at hf; omega)⟩

/-- Big-endian decode of a single byte is the byte. -/
lemma unpackBE_single (b : Nat) : unpackBE [b] = b := by
  simp [unpackBE]

/-- No value below 0x0a0a — in particular no single byte — is GREASE. -/
lemma isGrease_false_of_lt {v : Nat} (h : v < 2570) : isGrease v = false := by
  have hmem : v ∉ GREASE_TABLE := by
    intro hv
    simp only [GREASE_TABLE, List.mem_cons, List.not_mem_nil, or_false] at hv
    omega
  unfold isGrease List.contains
  rw [List.elem_eq_mem]
  exact decide_eq_false hmem

/-- Comma occurrences in a string. -/
def commaCount (s : String) : Nat := s.data.count ','

lemma commaCount_append (s t : String) :
    commaCount (s ++ t) = commaCount s + commaCount t := by
  simp [commaCount, String.data_append, List.count_append]

lemma commaCount_eq_zero {s : String} (h : ∀ c ∈ s.data, c ≠ ',') :
    commaCount s = 0 :=
  List.count_eq_zero.mpr fun hm => h ',' hm rfl

/-- Joining five comma-free strings with commas yields exactly four commas. -/
lemma commaCount_join_five {a b c d e : String}
    (ha : commaCount a = 0) (hb : commaCount b = 0) (hc : commaCount c = 0)
    (hd : commaCount d = 0) (he : commaCount e = 0) :
    commaCount (joinSep "," [a, b, c, d, e]) = 4 := by
  have hcomma : commaCount "," = 1 := by decide
  simp only [joinSep, commaCount_append, ha, hb, hc, hd, he, hcomma]

/-- One extension-loop step keeps the curve and point-format segments
comma-free and, away from type 0, leaves the server name alone. -/
lemma extStep_invariant {st st1 : ExtState} {e : Nat × List Nat}
    (h : extStep st e = some st1) :
    ((∀ c ∈ st.curve.data, c ≠ ',') → ∀ c ∈ st1.curve.data, c ≠ ',') ∧
    ((∀ c ∈ st.fmt.data, c ≠ ',') → ∀ c ∈ st1.fmt.data, c ≠ ',') ∧
    (e.1 ≠ 0 → st1.sn = st.sn) := by
  unfold extStep at h
  by_cases h10 : e.1 = 10
  · rw [if_pos h10, Option.bind_eq_some] at h
    obtain ⟨p, _, h⟩ := h
    rw [Option.map_eq_some'] at h
    obtain ⟨cv, hcv, hst1⟩ := h
    obtain ⟨vals, hvals⟩ := convert_eq_some hcv
    subst hst1
    refine ⟨fun _ => ?_, fun hf => hf, fun _ => rfl⟩
    rw [show ({ st with codes := _, curve := cv } : ExtState).curve = cv from rfl, hvals]
    exact joined_decimals_ne_comma vals
  · rw [if_neg h10] at h
    by_cases h11 : e.1 = 11
    · rw [if_pos h11, Option.bind_eq_some] at h
      obtain ⟨p, _, h⟩ := h
      rw [Option.map_eq_some'] at h
      obtain ⟨fv, hfv, hst1⟩ := h
      obtain ⟨vals, hvals⟩ := convert_eq_some hfv
      subst hst1
      refine ⟨fun hc => hc, fun _ => ?_, fun _ => rfl⟩
      rw [show ({ st with codes := _, fmt := fv } : ExtState).fmt = fv from rfl, hvals]
      exact joined_decimals_ne_comma vals
    · rw [if_neg h11] at h
      by_cases h0 : e.1 = 0
      · rw [if_pos h0, Option.bind_eq_some] at h
        obtain ⟨p, _, h⟩ := h
        rw [Option.map_eq_some'] at h
        obtain ⟨sv, _, hst1⟩ := h
        subst hst1
        exact ⟨fun hc => hc, fun hf => hf, fun hne => absurd h0 hne⟩
      · rw [if_neg h0] at h
        cases h
        exact ⟨fun hc => hc, fun hf => hf, fun _ => rfl⟩

/-- The extension loop never touches the server name unless it meets a
type-0 extension, and keeps the curve and point-format segments
comma-free. -/
lemma extFold_invariant :
    ∀ (l : List (Nat × List Nat)) (st st' : ExtState),
      List.foldlM extStep st l = some st' →
      ((∀ c ∈ st.curve.data, c ≠ ',') → ∀ c ∈ st'.curve.data, c ≠ ',') ∧
      ((∀ c ∈ st.fmt.data, c ≠ ',') → ∀ c ∈ st'.fmt.data, c ≠ ',') ∧
      ((∀ e ∈ l, e.1 ≠ 0) → st'.sn = st.sn) := by
  intro l
  induction l with
  | nil =>
    intro st st' h
    simp only [List.foldlM_nil] at h
    cases h
    exact ⟨fun h => h, fun h => h, fun _ => rfl⟩
  | cons e rest ih =>
    intro st st' h
    simp only [List.foldlM_cons, Option.bind_eq_bind] at h
    rw [Option.bind_eq_some] at h
    obtain ⟨st1, hstep, hrest⟩ := h
    obtain ⟨ihc, ihf, ihs⟩ := ih st1 st' hrest
    obtain ⟨sc, sf, ss⟩ := extStep_invariant hstep
    refine ⟨fun hc => ihc (sc hc), fun hf => ihf (sf hf), fun hne => ?_⟩
    rw [ihs fun u hu => hne u (by simp [hu]), ss (hne e (by simp))]

/-- Shape of a successful extension-walker result: three segments, each
comma-free. -/
lemma process_extensions_shape {exts : Option (List (Nat × List Nat))}
    {er : List String × List Nat} (h : process_extensions exts = some er) :
    ∃ a b c, er.1 = [a, b, c] ∧ (∀ ch ∈ a.data, ch ≠ ',') ∧
      (∀ ch ∈ b.data, ch ≠ ',') ∧ (∀ ch ∈ c.data, ch ≠ ',') := by
  cases exts with
  | none =>
    unfold process_extensions at h
    cases h
    exact ⟨"", "", "", rfl, by simp, by simp, by simp⟩
  | some l =>
    unfold process_extensions at h
    rw [Option.map_eq_some'] at h
    obtain ⟨st, hfold, her⟩ := h
    subst her
    obtain ⟨ihc, ihf, _⟩ := extFold_invariant l ⟨[], "", "", []⟩ st hfold
    exact ⟨_, _, _, rfl, joined_decimals_ne_comma _, ihc (by simp), ihf (by simp)⟩

/-! ### Concrete test vectors -/

/-- A well-formed ClientHello: version 771 (TLS 1.2), ciphers
0x1301/0x1302/0x1303, extensions SNI (host "a"), 23, 65281. -/
def exampleCH : ClientHello :=
  { version := 771,
    data := [0, 0, 6, 0x13, 0x01, 0x13, 0x02, 0x13, 0x03],
    extensions := some [(0, [0, 4, 0, 0, 1, 97]), (23, []), (65281, [])] }

/-- A ClientHello whose cipher-suite array has odd length, so the
segment conversion at line 229 raises `ValueError`. -/
def badCH : ClientHello :=
  { version := 771, data := [0, 0, 3, 1, 2, 3], extensions := some [] }

/-- A minimal well-formed ClientHello with no extensions attribute. -/
def goodCH : ClientHello :=
  { version := 770, data := [0, 0, 0], extensions := none }

/-- The record `goodCH` decodes to. -/
def goodResult : JA3Result :=
  { ja3 := "770,,,,",
    ja3_digest := "c60aede8a0769e8413584e679cee5579",
    server_name := [] }

/-! ### Claims -/

/-- Claim C1 counterexample: with `buf = [5]` and prefix width 1 the
decoded length is `L = 5` and the buffer is shorter than `1 + L = 6`,
yet `parse_variable_array` does not fail with any error — it silently
returns the truncated (here empty) payload and `consumed = 6`. -/
theorem c1_counterexample :
    List.length ([5] : List Nat) < 1 + unpackBE (List.take 1 ([5] : List Nat)) ∧
    parse_variable_array [5] 1 = some ([], 6) := by
  decide

/-- Claim C1 (amended): for every buffer and prefix width in 1..4 the
Variable-Length Field Extractor returns
`payload = buf[prefixWidth : prefixWidth+L]` — silently truncated when
the buffer is shorter than `prefixWidth + L`, never an error — and
`consumed = prefixWidth + L`; it fails only when the buffer is shorter
than the prefix itself, so the length cannot be read. -/
theorem c1_extractor_amended (buf : List Nat) (w : Nat) (h1 : 1 ≤ w) (h2 : w ≤ 4) :
    (w ≤ buf.length →
      parse_variable_array buf w =
        some ((buf.drop w).take (unpackBE (buf.take w)), unpackBE (buf.take w) + w)) ∧
    (buf.length < w → parse_variable_array buf w = none) := by
  constructor
  · intro h
    unfold parse_variable_array
    rw [if_pos ⟨h1, h2⟩, if_pos h]
  · intro h
    unfold parse_variable_array
    rw [if_pos ⟨h1, h2⟩, if_neg (by omega)]

/-- Witness for the amended C1 at a concrete input. -/
theorem c1_extractor_amended_witness :
    parse_variable_array [0, 1, 9, 9] 2 = some ([9], 3) := by
  have h := (c1_extractor_amended [0, 1, 9, 9] 2 (by decide) (by decide)).1 (by decide)
  exact h.trans (by decide)

/-- Claim C3: on aligned input the Segment Encoder returns the
hyphen-joined decimal renderings of the stride values in order with
every GREASE value removed (the spec-side `specSegment`); bytes
`00 2f 00 35` at width 2 give `"47-53"`, and a single GREASE value
gives the empty string. -/
theorem c3_segment_encoder :
    (∀ (data : List Nat) (w : Nat), w = 1 ∨ w = 2 → data.length % w = 0 →
      convert_to_ja3_segment data w = some (specSegment data w)) ∧
    convert_to_ja3_segment [0x00, 0x2f, 0x00, 0x35] 2 = some "47-53" ∧
    convert_to_ja3_segment [0x0a, 0x0a] 2 = some "" := by
  refine ⟨fun data w hw hm => convert_eq_specSegment hw hm, by decide, by decide⟩

/-- Witness for C3 at a concrete input. -/
theorem c3_segment_encoder_witness :
    convert_to_ja3_segment [0, 47, 0, 53] 2 = some "47-53" := by
  have h := c3_segment_encoder.1 [0, 47, 0, 53] 2 (Or.inr rfl) (by decide)
  exact h.trans (by decide)

/-- Claim C6: for the widths the source uses (1 and 2) the Segment
Encoder fails exactly when the data length is not a multiple of the
element width; empty input — originally empty or empty after GREASE
filtering — yields the empty string, not an error. -/
theorem c6_alignment :
    (∀ (data : List Nat) (w : Nat), w = 1 ∨ w = 2 →
      (convert_to_ja3_segment data w = none ↔ data.length % w ≠ 0)) ∧
    convert_to_ja3_segment [] 2 = some "" ∧
    convert_to_ja3_segment [0x1a, 0x1a] 2 = some "" := by
  refine ⟨fun data w hw => convert_eq_none_iff hw, by decide, by decide⟩

/-- Witness for C6 at a concrete odd-length input. -/
theorem c6_alignment_witness : convert_to_ja3_segment [1, 2, 3] 2 = none :=
  (c6_alignment.1 [1, 2, 3] 2 (Or.inr rfl)).mpr (by decide)

/-- Claim C10: with element width 1 nothing is ever GREASE (all 16
GREASE values exceed 0xff), so the Segment Encoder returns every byte's
decimal rendering, hyphen-joined, in order. -/
theorem c10_width_one (data : List Nat) (hbytes : ∀ b ∈ data, b < 256) :
    convert_to_ja3_segment data 1 = some (joinSep "-" (data.map toString)) := by
  rw [convert_eq_specSegment (Or.inl rfl) (Nat.mod_one _)]
  congr 1
  unfold specSegment chunksW
  rw [chunksWCore_one data.length data le_rfl, List.map_map]
  have h1 : data.map (unpackBE ∘ fun b => [b]) = data := by
    have := List.map_congr_left (l := data) (f := unpackBE ∘ fun b => [b]) (g := id)
      (fun a _ => by simp [unpackBE_single, Function.comp])
    simpa using this
  rw [h1]
  have h2 : data.filter (fun v => !isGrease v) = data :=
    List.filter_eq_self.mpr fun v hv => by
      rw [isGrease_false_of_lt (Nat.lt_trans (hbytes v hv) (by norm_num))]
      rfl
  rw [h2]

/-- Witness for C10 at a concrete input. -/
theorem c10_width_one_witness : convert_to_ja3_segment [0, 1, 255] 1 = some "0-1-255" := by
  have h := c10_width_one [0, 1, 255] (by decide)
  exact h.trans (by decide)

/-- Claim C7: on an SNI payload (after stripping the outer 2-byte
prefix) with at least the 3 header bytes, `getServerName` reads the
1-byte name type and 2-byte big-endian name length, succeeds with the
remainder exactly when the remainder is exactly `nameLength` bytes
long, and fails otherwise; the walker's SNI path returns the bytes of
`"example.com"` on a well-formed payload and fails on a length
mismatch instead of truncating. -/
theorem c7_sni :
    (∀ data : List Nat, 3 ≤ data.length →
      (getServerName data = some (data.drop 3) ↔
        data.length = 3 + unpackBE ((data.drop 1).take 2)) ∧
      (data.length ≠ 3 + unpackBE ((data.drop 1).take 2) → getServerName data = none)) ∧
    sniFromExt [0, 14, 0, 0, 11, 101, 120, 97, 109, 112, 108, 101, 46, 99, 111, 109] =
      some [101, 120, 97, 109, 112, 108, 101, 46, 99, 111, 109] ∧
    sniFromExt [0, 4, 0, 0, 9, 97] = none := by
  refine ⟨fun data h3 => ?_, by decide, by decide⟩
  have hlen2 : ((data.drop 1).take 2).length = 2 := by
    simp only [List.length_take, List.length_drop]
    omega
  have hntoh : ntoh ((data.drop 1).take 2) = some (unpackBE ((data.drop 1).take 2)) := by
    unfold ntoh
    rw [if_pos (by omega)]
  have hd3 : (data.drop 3).length = data.length - 3 := by
    simp [List.length_drop]
  have hgsn : getServerName data =
      if data.length - 3 = unpackBE ((data.drop 1).take 2) then some (data.drop 3) else none := by
    simp only [getServerName, hntoh, Option.some_bind, hd3]
  rw [hgsn]
  by_cases hEq : data.length - 3 = unpackBE ((data.drop 1).take 2)
  · rw [if_pos hEq]
    exact ⟨⟨fun _ => by omega, fun _ => rfl⟩, fun hne => absurd (by omega) hne⟩
  · rw [if_neg hEq]
    exact ⟨⟨fun hx => Option.noConfusion hx, fun hx => absurd (by omega) hEq⟩, fun _ => rfl⟩

/-- Witness for C7 at a concrete input. -/
theorem c7_sni_witness : getServerName [0, 0, 5, 104, 101, 108, 108, 111] = some [104, 101, 108, 108, 111] := by
  have h := ((c7_sni.1 [0, 0, 5, 104, 101, 108, 108, 111] (by decide)).1).mpr (by decide)
  exact h.trans (by decide)

set_option maxRecDepth 10000 in
/-- Claim C2: a successfully decoded ClientHello yields exactly the five
segments [version, ciphers, extensionCodes, ellipticCurves,
pointFormats] joined by commas in that order, with `ja3_digest` the MD5
of the string's byte encoding in lowercase hex; the test vector with
version 771, ciphers 4865-4866-4867 and extension codes 0-23-65281
yields `"771,4865-4866-4867,0-23-65281,,"`. -/
theorem c2_assembly :
    (∀ (ch : ClientHello) (sid cs : List Nat × Nat) (ciphers : String)
        (er : List String × List Nat),
      parse_variable_array ch.data 1 = some sid →
      parse_variable_array (ch.data.drop sid.2) 2 = some cs →
      convert_to_ja3_segment cs.1 2 = some ciphers →
      process_extensions ch.extensions = some er →
      decodeClientHello ch = some
        { ja3 := joinSep "," ([toString ch.version, ciphers] ++ er.1),
          ja3_digest := md5HexOfString (joinSep "," ([toString ch.version, ciphers] ++ er.1)),
          server_name := er.2 }) ∧
    decodeClientHello exampleCH = some
      { ja3 := "771,4865-4866-4867,0-23-65281,,",
        ja3_digest := "0af334ef2c866dbf60311c758bd7cfe6",
        server_name := [97] } := by
  constructor
  · intro ch sid cs ciphers er h1 h2 h3 h4
    simp [decodeClientHello, h1, h2, h3, h4]
  · decide

set_option maxRecDepth 10000 in
/-- Witness for C2 at a concrete input. -/
theorem c2_assembly_witness :
    decodeClientHello goodCH = some
      { ja3 := "770,,,,",
        ja3_digest := "c60aede8a0769e8413584e679cee5579",
        server_name := [] } := by
  have h := c2_assembly.1 goodCH ([], 1) ([], 2) "" (["", "", ""], [])
    (by decide) (by decide) (by decide) (by decide)
  exact h.trans (by decide)

/-- Claim C5: every successfully decoded ClientHello yields a ja3
string with exactly four commas (five segment slots), including when
the handshake carries no extensions at all. -/
theorem c5_comma_invariant (ch : ClientHello) (r : JA3Result)
    (h : decodeClientHello ch = some r) : commaCount r.ja3 = 4 := by
  unfold decodeClientHello at h
  rw [Option.bind_eq_some] at h
  obtain ⟨p1, hp1, h⟩ := h
  rw [Option.bind_eq_some] at h
  obtain ⟨p2, hp2, h⟩ := h
  rw [Option.bind_eq_some] at h
  obtain ⟨ciphers, hciph, h⟩ := h
  rw [Option.map_eq_some'] at h
  obtain ⟨er, her, hr⟩ := h
  obtain ⟨a, b, c, hab, hca, hcb, hcc⟩ := process_extensions_shape her
  subst hr
  show commaCount (joinSep "," ([toString ch.version, ciphers] ++ er.1)) = 4
  rw [hab]
  obtain ⟨vals, hvals⟩ := convert_eq_some hciph
  exact commaCount_join_five
    (commaCount_eq_zero (toString_nat_ne_comma ch.version))
    (commaCount_eq_zero (hvals ▸ joined_decimals_ne_comma vals))
    (commaCount_eq_zero hca) (commaCount_eq_zero hcb) (commaCount_eq_zero hcc)

set_option maxRecDepth 10000 in
/-- Witness for C5 at a concrete input. -/
theorem c5_comma_invariant_witness : commaCount goodResult.ja3 = 4 :=
  c5_comma_invariant goodCH goodResult (by decide)

/-- Claim C8: decoding the same ClientHello buffer twice yields
byte-identical ja3 strings and digests — the pipeline is a pure
function of its input. -/
theorem c8_deterministic (b : ClientHello) (r1 r2 : JA3Result)
    (h1 : decodeClientHello b = some r1) (h2 : decodeClientHello b = some r2) :
    r1.ja3 = r2.ja3 ∧ r1.ja3_digest = r2.ja3_digest := by
  rw [h1] at h2
  cases Option.some.inj h2
  exact ⟨rfl, rfl⟩

set_option maxRecDepth 10000 in
/-- Witness for C8 at a concrete input. -/
theorem c8_deterministic_witness :
    goodResult.ja3 = goodResult.ja3 ∧ goodResult.ja3_digest = goodResult.ja3_digest :=
  c8_deterministic goodCH goodResult goodResult (by decide) (by decide)

/-- Claim C9: with no extensions attribute, or with an extension list
holding no type-0 entry, the walker's server name is the empty string;
an SNI entry carrying an empty hostname produces the same empty value,
so the two cases are indistinguishable in the output. -/
theorem c9_server_name_default :
    process_extensions none = some (["", "", ""], []) ∧
    (∀ (l : List (Nat × List Nat)) (er : List String × List Nat),
      (∀ e ∈ l, e.1 ≠ 0) → process_extensions (some l) = some er → er.2 = []) ∧
    process_extensions (some [(0, [0, 3, 0, 0, 0])]) = some (["0", "", ""], []) := by
  refine ⟨rfl, ?_, by decide⟩
  intro l er hne h
  unfold process_extensions at h
  rw [Option.map_eq_some'] at h
  obtain ⟨st, hfold, her⟩ := h
  obtain ⟨_, _, hs⟩ := extFold_invariant l ⟨[], "", "", []⟩ st hfold
  subst her
  exact hs hne

/-- Witness for C9 at a concrete input. -/
theorem c9_server_name_default_witness :
    ((["23", "", ""], []) : List String × List Nat).2 = [] :=
  c9_server_name_default.2.1 [(23, [])] (["23", "", ""], []) (by decide) (by decide)

/-- In the Except monad, binding after a success applies the
continuation. -/
lemma except_ok_bind {α β : Type} (a : α) (f : α → Except String β) :
    (Except.ok a >>= f) = f a := rfl

/-- In the Except monad, binding after an error keeps the error. -/
lemma except_error_bind {α β : Type} (e : String) (f : α → Except String β) :
    ((Except.error e : Except String α) >>= f) = Except.error e := rfl

set_option maxRecDepth 10000 in
/-- Claim C4 counterexample: a batch holding a record whose ClientHello
decode raises (odd cipher array) followed by a perfectly good record
does not drop just the bad record — the uncaught exception aborts the
whole batch and the good record's output is lost. -/
theorem c4_counterexample :
    decodeClientHello badCH = none ∧
    decodeClientHello goodCH = some goodResult ∧
    process_records [TLSRecord.hello badCH, TLSRecord.hello goodCH] =
      Except.error "uncaught parsing exception" ∧
    process_records [TLSRecord.hello badCH, TLSRecord.hello goodCH] ≠
      Except.ok [goodResult] := by
  have hproc : process_records [TLSRecord.hello badCH, TLSRecord.hello goodCH] =
      Except.error "uncaught parsing exception" := rfl
  refine ⟨by decide, by decide, hproc, ?_⟩
  intro h
  rw [hproc] at h
  exact Except.noConfusion h

/-- Claim C4 (amended): records dismissed by the guarded pre-checks are
skipped one at a time, but a parsing error raised while decoding a
record's ClientHello (misaligned segment data, malformed SNI, or
similar) is not caught inside the loop: it terminates processing of the
entire batch, and no record after it produces output. -/
theorem c4_batch_amended :
    (∀ rest : List TLSRecord,
      process_records (TLSRecord.skipped :: rest) = process_records rest) ∧
    (∀ (l r : List TLSRecord) (acc : List JA3Result) (ch : ClientHello),
      process_records l = Except.ok acc →
      decodeClientHello ch = none →
      process_records (l ++ TLSRecord.hello ch :: r) =
        Except.error "uncaught parsing exception") := by
  constructor
  · intro rest
    rfl
  · intro l r acc ch hl hch
    unfold process_records at hl ⊢
    rw [List.foldlM_append, hl, except_ok_bind, List.foldlM_cons]
    have hstep : recStep acc (TLSRecord.hello ch) =
        Except.error "uncaught parsing exception" := by
      simp only [recStep]
      rw [hch]
    rw [hstep, except_error_bind]

/-- Witness for the amended C4 at a concrete input. -/
theorem c4_batch_amended_witness :
    process_records ([] ++ TLSRecord.hello badCH :: [TLSRecord.hello goodCH]) =
      Except.error "uncaught parsing exception" :=
  c4_batch_amended.2 [] [TLSRecord.hello goodCH] [] badCH rfl (by decide)

end JA3
